import Mathlib

/-!
Verification of the timing utility in `src/utilities/pbp_timer.py`.

The embedding follows the Python source closely:

* `Timers` embeds the registry class `Timers(UserDict)`: the field `data`
  is the underlying totals dictionary (`self.data`) and `timings` is the
  private per-name history dictionary (`self._timings`, a
  `defaultdict(list)`); both are modelled as partial maps
  `String → Option _`, where `none` means the key is absent.
* Python `float` values are embedded as exact rationals `ℚ`; the IEEE-754
  rounding of the source is abstracted away, as is the decimal rendering
  of floats inside report strings (`qStr` renders the exact rational).
* Methods that raise are embedded with `Except String`; the error payload
  carries the `KeyError` key or the exception message.  Methods that
  mutate `self` in place return the post-state explicitly; a method that
  raises before mutating returns the unchanged state together with the
  error.
-/

/-- Registry state of the `Timers` dictionary: `data` is the totals
dictionary inherited from `UserDict`, `timings` the private history
dictionary `self._timings`. -/
structure Timers where
  data : String → Option ℚ
  timings : String → Option (List ℚ)

namespace Timers

/-- A freshly constructed `Timers()`: both dictionaries are empty. -/
def init : Timers := ⟨fun _ => none, fun _ => none⟩

/-- `Timers.add`: appends `value` to `self._timings[name]` (the
`defaultdict` creates the entry as `[]` first) and then performs
`self.data.setdefault(name, 0); self.data[name] += value` on the plain
underlying dictionary. -/
def add (t : Timers) (name : String) (value : ℚ) : Timers where
  data := fun k => if k = name then some ((t.data name).getD 0 + value) else t.data k
  timings := fun k => if k = name then some ((t.timings name).getD [] ++ [value]) else t.timings k

/-- `Timers.clear`: `self.data.clear()` and `self._timings.clear()`. -/
def clear (_t : Timers) : Timers := ⟨fun _ => none, fun _ => none⟩

/-- `Timers.__setitem__`: raises `TypeError` before touching any state, so
the registry is returned unchanged together with the error. -/
def setitem (t : Timers) (_name : String) (_value : ℚ) : Timers × Except String Unit :=
  (t, .error "Timers does not support item assignment. Use .add() to update values.")

/-- `Timers.apply`: applies `func` to `self._timings[name]` when the name
is present, otherwise raises `KeyError(name)`. -/
def apply (t : Timers) (func : List ℚ → α) (name : String) : Except String α :=
  match t.timings name with
  | some values => .ok (func values)
  | none => .error name

/-- `Timers.count`: `self.apply(len, name=name)`. -/
def count (t : Timers) (name : String) : Except String ℕ :=
  t.apply List.length name

/-- `Timers.total`: `self.apply(sum, name=name)`. -/
def total (t : Timers) (name : String) : Except String ℚ :=
  t.apply List.sum name

end Timers

/-- Python truthiness fallback `values or [0]` on a list of floats. -/
def pyOr0 (values : List ℚ) : List ℚ := if values = [] then [0] else values

/-- Python builtin `min` on a list.  The source only ever applies it to
`values or [0]`, which is never empty; `min([])` raises in Python, and the
`[]` case below is unreachable in the embedded code. -/
def pyMin : List ℚ → ℚ
  | [] => 0
  | x :: xs => xs.foldl min x

/-- Python builtin `max` on a list; the `[]` case is unreachable as in
`pyMin`. -/
def pyMax : List ℚ → ℚ
  | [] => 0
  | x :: xs => xs.foldl max x

/-- `statistics.mean`: arithmetic mean of the values. -/
def pyMean (values : List ℚ) : ℚ := values.sum / values.length

/-- Python `sorted`: the unique `≤`-sorted permutation of the list
(realised here by insertion sort). -/
def pySorted (values : List ℚ) : List ℚ := List.insertionSort (· ≤ ·) values

/-- `statistics.median`: middle element of the sorted values for odd
length, average of the two middle elements for even length.  (The
zero-length case raises in Python and is unreachable in the embedded
code.) -/
def pyMedian (values : List ℚ) : ℚ :=
  let s := pySorted values
  let n := s.length
  if n % 2 = 1 then s.getD (n / 2) 0
  else (s.getD (n / 2 - 1) 0 + s.getD (n / 2) 0) / 2

/-- Sample variance with Bessel correction, `Σ (x - mean)² / (n - 1)`:
the square of what `statistics.stdev` returns. -/
def sampleVariance (values : List ℚ) : ℚ :=
  (values.map (fun x => (x - pyMean values) ^ 2)).sum / ((values.length : ℚ) - 1)

/-- Result of `Timers.stdev`: `math.nan`, or the value
`statistics.stdev(values)`.  `statistics.stdev` returns the nonnegative
square root of the sample variance; to stay inside `ℚ` the returned real
is represented by its square, so `sqrtOfVariance v` stands for `√v`. -/
inductive StdevValue where
  | nan : StdevValue
  | sqrtOfVariance (v : ℚ) : StdevValue
deriving DecidableEq

namespace Timers

/-- `Timers.min`: `self.apply(lambda values: min(values or [0]), name=name)`. -/
def min (t : Timers) (name : String) : Except String ℚ :=
  t.apply (fun values => pyMin (pyOr0 values)) name

/-- `Timers.max`: `self.apply(lambda values: max(values or [0]), name=name)`. -/
def max (t : Timers) (name : String) : Except String ℚ :=
  t.apply (fun values => pyMax (pyOr0 values)) name

/-- `Timers.mean`: `self.apply(lambda values: statistics.mean(values or [0]), name=name)`. -/
def mean (t : Timers) (name : String) : Except String ℚ :=
  t.apply (fun values => pyMean (pyOr0 values)) name

/-- `Timers.median`: `self.apply(lambda values: statistics.median(values or [0]), name=name)`. -/
def median (t : Timers) (name : String) : Except String ℚ :=
  t.apply (fun values => pyMedian (pyOr0 values)) name

/-- `Timers.stdev`: raises `KeyError(name)` when the name is absent,
returns `math.nan` for fewer than two samples, and `statistics.stdev` of
the samples otherwise. -/
def stdev (t : Timers) (name : String) : Except String StdevValue :=
  match t.timings name with
  | some value => .ok (if 2 ≤ value.length then .sqrtOfVariance (sampleVariance value) else .nan)
  | none => .error name

end Timers

/-- One mutating registry operation: `add(name, value)` or `clear()`. -/
inductive RegOp where
  | add (name : String) (value : ℚ) : RegOp
  | clear : RegOp
deriving DecidableEq

/-- Executes one registry operation. -/
def applyOp (t : Timers) : RegOp → Timers
  | .add n v => t.add n v
  | .clear => t.clear

/-- Registry state reached by running a sequence of operations on a fresh
registry. -/
def runOps (ops : List RegOp) : Timers := ops.foldl applyOp Timers.init

/-- Names that some `add` of the operation sequence records. -/
def addedNames (ops : List RegOp) : List String :=
  ops.filterMap fun o => match o with | .add n _ => some n | .clear => none

/-- Runs a sequence of `add(name, value)` calls on a registry. -/
def Timers.addAll (t : Timers) (adds : List (String × ℚ)) : Timers :=
  adds.foldl (fun s p => s.add p.1 p.2) t

/-- The values recorded for `name` by a sequence of `add` calls, in
recording order. -/
def recorded (name : String) (adds : List (String × ℚ)) : List ℚ :=
  (adds.filter (fun p => p.1 == name)).map Prod.snd

section RegistryLemmas

lemma Timers.add_timings_self (t : Timers) (n : String) (v : ℚ) :
    (t.add n v).timings n = some ((t.timings n).getD [] ++ [v]) := by
  simp [Timers.add]

lemma Timers.add_timings_ne (t : Timers) {k n : String} (v : ℚ) (h : k ≠ n) :
    (t.add n v).timings k = t.timings k := by
  simp [Timers.add, h]

lemma Timers.add_data_self (t : Timers) (n : String) (v : ℚ) :
    (t.add n v).data n = some ((t.data n).getD 0 + v) := by
  simp [Timers.add]

lemma Timers.add_data_ne (t : Timers) {k n : String} (v : ℚ) (h : k ≠ n) :
    (t.add n v).data k = t.data k := by
  simp [Timers.add, h]

lemma recorded_nil (n : String) : recorded n [] = [] := rfl

lemma recorded_cons_self (n : String) (v : ℚ) (adds : List (String × ℚ)) :
    recorded n ((n, v) :: adds) = v :: recorded n adds := by
  simp [recorded]

lemma recorded_cons_ne {m n : String} (v : ℚ) (adds : List (String × ℚ)) (h : m ≠ n) :
    recorded n ((m, v) :: adds) = recorded n adds := by
  simp [recorded, h]

lemma Timers.addAll_timings (adds : List (String × ℚ)) :
    ∀ (t : Timers) (n : String),
      (t.addAll adds).timings n =
        if recorded n adds = [] then t.timings n
        else some ((t.timings n).getD [] ++ recorded n adds) := by
  induction adds with
  | nil => intro t n; simp [Timers.addAll, recorded_nil]
  | cons p rest ih =>
    intro t n
    obtain ⟨m, v⟩ := p
    have hstep : (t.addAll ((m, v) :: rest)) = ((t.add m v).addAll rest) := rfl
    rw [hstep, ih]
    by_cases hm : m = n
    · subst hm
      rw [recorded_cons_self, Timers.add_timings_self]
      by_cases hr : recorded m rest = []
      · simp [hr]
      · simp [hr]
    · rw [recorded_cons_ne v rest hm, Timers.add_timings_ne t v (
        show n ≠ m from fun h => hm h.symm)]

lemma Timers.addAll_data (adds : List (String × ℚ)) :
    ∀ (t : Timers) (n : String),
      (t.addAll adds).data n =
        if recorded n adds = [] then t.data n
        else some ((t.data n).getD 0 + (recorded n adds).sum) := by
  induction adds with
  | nil => intro t n; simp [Timers.addAll, recorded_nil]
  | cons p rest ih =>
    intro t n
    obtain ⟨m, v⟩ := p
    have hstep : (t.addAll ((m, v) :: rest)) = ((t.add m v).addAll rest) := rfl
    rw [hstep, ih]
    by_cases hm : m = n
    · subst hm
      rw [recorded_cons_self, Timers.add_data_self]
      by_cases hr : recorded m rest = []
      · simp [hr]
      · simp [hr, add_assoc]
    · rw [recorded_cons_ne v rest hm, Timers.add_data_ne t v (
        show n ≠ m from fun h => hm h.symm)]

lemma Timers.init_addAll_timings (adds : List (String × ℚ)) (n : String) :
    (Timers.init.addAll adds).timings n =
      if recorded n adds = [] then none else some (recorded n adds) := by
  rw [Timers.addAll_timings]
  by_cases hr : recorded n adds = [] <;> simp [hr, Timers.init]

lemma Timers.init_addAll_data (adds : List (String × ℚ)) (n : String) :
    (Timers.init.addAll adds).data n =
      if recorded n adds = [] then none else some (recorded n adds).sum := by
  rw [Timers.addAll_data]
  by_cases hr : recorded n adds = [] <;> simp [hr, Timers.init]

end RegistryLemmas

section MinMaxLemmas

lemma foldl_min_le_init (xs : List ℚ) : ∀ a : ℚ, xs.foldl min a ≤ a := by
  induction xs with
  | nil => intro a; exact le_refl a
  | cons x xs ih => intro a; exact le_trans (ih (Min.min a x)) (min_le_left a x)

lemma foldl_min_le_mem (xs : List ℚ) : ∀ (a x : ℚ), x ∈ xs → xs.foldl min a ≤ x := by
  induction xs with
  | nil => intro a x hx; cases hx
  | cons y ys ih =>
    intro a x hx
    rcases List.mem_cons.mp hx with h | h
    · subst h
      exact le_trans (foldl_min_le_init ys (Min.min a x)) (min_le_right a x)
    · exact ih (Min.min a y) x h

lemma foldl_min_mem (xs : List ℚ) : ∀ a : ℚ, xs.foldl min a = a ∨ xs.foldl min a ∈ xs := by
  induction xs with
  | nil => intro a; exact Or.inl rfl
  | cons y ys ih =>
    intro a
    rcases ih (Min.min a y) with h | h
    · rcases min_cases a y with ⟨hmin, _⟩ | ⟨hmin, _⟩
      · exact Or.inl (by rw [List.foldl_cons, h, hmin])
      · exact Or.inr (by rw [List.foldl_cons, h, hmin]; exact List.mem_cons_self y ys)
    · exact Or.inr (List.mem_cons_of_mem y h)

lemma pyMin_mem (l : List ℚ) (h : l ≠ []) : pyMin l ∈ l := by
  cases l with
  | nil => exact absurd rfl h
  | cons x xs =>
    rcases foldl_min_mem xs x with h0 | h0
    · rw [pyMin, h0]; exact List.mem_cons_self x xs
    · rw [pyMin]; exact List.mem_cons_of_mem x h0

lemma pyMin_le (l : List ℚ) : ∀ x ∈ l, pyMin l ≤ x := by
  cases l with
  | nil => intro x hx; cases hx
  | cons y ys =>
    intro x hx
    rcases List.mem_cons.mp hx with h | h
    · subst h; exact foldl_min_le_init ys x
    · exact foldl_min_le_mem ys y x h

lemma foldl_max_init_le (xs : List ℚ) : ∀ a : ℚ, a ≤ xs.foldl max a := by
  induction xs with
  | nil => intro a; exact le_refl a
  | cons x xs ih => intro a; exact le_trans (le_max_left a x) (ih (Max.max a x))

lemma foldl_max_mem_le (xs : List ℚ) : ∀ (a x : ℚ), x ∈ xs → x ≤ xs.foldl max a := by
  induction xs with
  | nil => intro a x hx; cases hx
  | cons y ys ih =>
    intro a x hx
    rcases List.mem_cons.mp hx with h | h
    · subst h
      exact le_trans (le_max_right a x) (foldl_max_init_le ys (Max.max a x))
    · exact ih (Max.max a y) x h

lemma foldl_max_mem (xs : List ℚ) : ∀ a : ℚ, xs.foldl max a = a ∨ xs.foldl max a ∈ xs := by
  induction xs with
  | nil => intro a; exact Or.inl rfl
  | cons y ys ih =>
    intro a
    rcases ih (Max.max a y) with h | h
    · rcases max_cases a y with ⟨hmax, _⟩ | ⟨hmax, _⟩
      · exact Or.inl (by rw [List.foldl_cons, h, hmax])
      · exact Or.inr (by rw [List.foldl_cons, h, hmax]; exact List.mem_cons_self y ys)
    · exact Or.inr (List.mem_cons_of_mem y h)

lemma pyMax_mem (l : List ℚ) (h : l ≠ []) : pyMax l ∈ l := by
  cases l with
  | nil => exact absurd rfl h
  | cons x xs =>
    rcases foldl_max_mem xs x with h0 | h0
    · rw [pyMax, h0]; exact List.mem_cons_self x xs
    · rw [pyMax]; exact List.mem_cons_of_mem x h0

lemma le_pyMax (l : List ℚ) : ∀ x ∈ l, x ≤ pyMax l := by
  cases l with
  | nil => intro x hx; cases hx
  | cons y ys =>
    intro x hx
    rcases List.mem_cons.mp hx with h | h
    · subst h; exact foldl_max_init_le ys x
    · exact foldl_max_mem_le ys y x h

end MinMaxLemmas

section InvariantLemmas

/-- The registry consistency invariant: every recorded history is
non-empty and its sum is the stored total, and a name absent from the
history dictionary is absent from the totals dictionary. -/
def RegInv (t : Timers) : Prop :=
  ∀ n : String,
    (∀ l, t.timings n = some l → t.data n = some l.sum ∧ l ≠ []) ∧
    (t.timings n = none → t.data n = none)

lemma regInv_init : RegInv Timers.init := by
  intro n
  constructor
  · intro l hl; cases hl
  · intro _; rfl

lemma regInv_add (t : Timers) (hInv : RegInv t) (m : String) (v : ℚ) :
    RegInv (t.add m v) := by
  intro n
  by_cases hn : n = m
  · subst hn
    constructor
    · intro l hl
      rw [Timers.add_timings_self] at hl
      have hl2 : (t.timings n).getD [] ++ [v] = l := by
        exact Option.some_injective _ hl
      rw [Timers.add_data_self]
      constructor
      · cases ht : t.timings n with
        | some l0 =>
          have hd := ((hInv n).1 l0 ht).1
          rw [ht] at hl2
          rw [hd, ← hl2]
          simp
        | none =>
          have hd := (hInv n).2 ht
          rw [ht] at hl2
          rw [hd, ← hl2]
          simp
      · rw [← hl2]; simp
    · intro hl
      rw [Timers.add_timings_self] at hl
      cases hl
  · constructor
    · intro l hl
      rw [Timers.add_timings_ne t v hn] at hl
      rw [Timers.add_data_ne t v hn]
      exact (hInv n).1 l hl
    · intro hl
      rw [Timers.add_timings_ne t v hn] at hl
      rw [Timers.add_data_ne t v hn]
      exact (hInv n).2 hl

lemma regInv_clear (t : Timers) : RegInv t.clear := regInv_init

lemma regInv_applyOp (t : Timers) (hInv : RegInv t) (op : RegOp) :
    RegInv (applyOp t op) := by
  cases op with
  | add m v => exact regInv_add t hInv m v
  | clear => exact regInv_clear t

lemma regInv_foldl (ops : List RegOp) :
    ∀ t : Timers, RegInv t → RegInv (ops.foldl applyOp t) := by
  induction ops with
  | nil => intro t h; exact h
  | cons op rest ih =>
    intro t h
    exact ih (applyOp t op) (regInv_applyOp t h op)

lemma regInv_runOps (ops : List RegOp) : RegInv (runOps ops) :=
  regInv_foldl ops Timers.init regInv_init

lemma foldl_timings_none (ops : List RegOp) :
    ∀ (t : Timers) (n : String), n ∉ addedNames ops → t.timings n = none →
      (ops.foldl applyOp t).timings n = none := by
  induction ops with
  | nil => intro t n _ h; exact h
  | cons op rest ih =>
    intro t n hmem h
    cases op with
    | add m v =>
      rw [show addedNames (RegOp.add m v :: rest) = m :: addedNames rest from rfl] at hmem
      have hnm : n ≠ m := fun hc => hmem (hc ▸ List.mem_cons_self m (addedNames rest))
      have hmem2 : n ∉ addedNames rest := fun hc => hmem (List.mem_cons_of_mem m hc)
      exact ih (t.add m v) n hmem2 (by rw [Timers.add_timings_ne t v hnm]; exact h)
    | clear =>
      rw [show addedNames (RegOp.clear :: rest) = addedNames rest from rfl] at hmem
      exact ih t.clear n hmem rfl

lemma queries_error_of_none (t : Timers) (n : String) (h : t.timings n = none) :
    t.count n = .error n ∧ t.total n = .error n ∧ t.min n = .error n ∧
    t.max n = .error n ∧ t.mean n = .error n ∧ t.median n = .error n ∧
    t.stdev n = .error n := by
  refine ⟨?_, ?_, ?_, ?_, ?_, ?_, ?_⟩ <;>
    simp [Timers.count, Timers.total, Timers.min, Timers.max, Timers.mean,
      Timers.median, Timers.stdev, Timers.apply, h]

end InvariantLemmas

/-- C1: in every registry state reachable by a sequence of `add` and
`clear` operations from the fresh registry, every name present in the
history dictionary has a stored total equal to the sum of its history,
and the history holds at least one entry. -/
theorem registry_totals_match_history (ops : List RegOp) (n : String) (l : List ℚ)
    (h : (runOps ops).timings n = some l) :
    (runOps ops).data n = some l.sum ∧ 1 ≤ l.length := by
  obtain ⟨hd, hne⟩ := ((regInv_runOps ops n).1) l h
  refine ⟨hd, ?_⟩
  cases l with
  | nil => exact absurd rfl hne
  | cons x xs => simp

/-- Witness for `registry_totals_match_history` at a concrete operation
sequence. -/
theorem registry_totals_match_history_witness :
    (runOps [RegOp.add "a" 0, RegOp.clear, RegOp.add "b" 0, RegOp.add "b" 0]).timings "b" =
        some [0, 0] ∧
    ((runOps [RegOp.add "a" 0, RegOp.clear, RegOp.add "b" 0, RegOp.add "b" 0]).data "b" =
        some ([0, 0] : List ℚ).sum ∧ 1 ≤ ([0, 0] : List ℚ).length) :=
  ⟨by decide,
   registry_totals_match_history [RegOp.add "a" 0, RegOp.clear, RegOp.add "b" 0, RegOp.add "b" 0]
     "b" [0, 0] (by decide)⟩

/-- C4: after `add(n, v1), ..., add(n, vk)` with `k ≥ 1` on a fresh
registry, `total(n)` returns `v1 + ... + vk` and `count(n)` returns `k`. -/
theorem registry_total_count_after_adds (n : String) (vs : List ℚ) (h : vs ≠ []) :
    (Timers.init.addAll (vs.map fun v => (n, v))).total n = .ok vs.sum ∧
    (Timers.init.addAll (vs.map fun v => (n, v))).count n = .ok vs.length := by
  have hrec : ∀ ws : List ℚ, recorded n (ws.map fun v => (n, v)) = ws := by
    intro ws
    induction ws with
    | nil => rfl
    | cons x xs ih => rw [List.map_cons, recorded_cons_self, ih]
  have ht := Timers.init_addAll_timings (vs.map fun v => (n, v)) n
  rw [hrec vs] at ht
  clear hrec
  rw [if_neg h] at ht
  constructor <;> simp [Timers.total, Timers.count, Timers.apply, ht]

/-- Witness for `registry_total_count_after_adds` at a concrete add
sequence. -/
theorem registry_total_count_after_adds_witness :
    ([0, 0] : List ℚ) ≠ [] ∧
    ((Timers.init.addAll (([0, 0] : List ℚ).map fun v => ("a", v))).total "a" =
        .ok ([0, 0] : List ℚ).sum ∧
     (Timers.init.addAll (([0, 0] : List ℚ).map fun v => ("a", v))).count "a" =
        .ok ([0, 0] : List ℚ).length) :=
  ⟨by decide, registry_total_count_after_adds "a" [0, 0] (by decide)⟩

/-- C5: every statistic query for a name never recorded raises
`KeyError(name)`; after `clear()` the registry equals a fresh registry, so
every query on a previously recorded name raises `KeyError(name)` and a
subsequent `add` behaves exactly as on a fresh registry. -/
theorem registry_unknown_name_errors :
    (∀ (ops : List RegOp) (n : String), n ∉ addedNames ops →
      (runOps ops).count n = .error n ∧ (runOps ops).total n = .error n ∧
      (runOps ops).min n = .error n ∧ (runOps ops).max n = .error n ∧
      (runOps ops).mean n = .error n ∧ (runOps ops).median n = .error n ∧
      (runOps ops).stdev n = .error n) ∧
    (∀ t : Timers, t.clear = Timers.init) ∧
    (∀ (t : Timers) (n : String),
      t.clear.count n = .error n ∧ t.clear.total n = .error n ∧
      t.clear.min n = .error n ∧ t.clear.max n = .error n ∧
      t.clear.mean n = .error n ∧ t.clear.median n = .error n ∧
      t.clear.stdev n = .error n) ∧
    (∀ (t : Timers) (n : String) (v : ℚ), t.clear.add n v = Timers.init.add n v) := by
  refine ⟨?_, ?_, ?_, ?_⟩
  · intro ops n h
    exact queries_error_of_none _ n (foldl_timings_none ops Timers.init n h rfl)
  · intro t; rfl
  · intro t n
    exact queries_error_of_none t.clear n rfl
  · intro t n v; rfl

/-- Witness for `registry_unknown_name_errors` at a concrete operation
sequence and name. -/
theorem registry_unknown_name_errors_witness :
    ("a" ∉ addedNames [RegOp.add "b" 0]) ∧
    ((runOps [RegOp.add "b" 0]).count "a" = .error "a" ∧
     (runOps [RegOp.add "b" 0]).total "a" = .error "a" ∧
     (runOps [RegOp.add "b" 0]).min "a" = .error "a" ∧
     (runOps [RegOp.add "b" 0]).max "a" = .error "a" ∧
     (runOps [RegOp.add "b" 0]).mean "a" = .error "a" ∧
     (runOps [RegOp.add "b" 0]).median "a" = .error "a" ∧
     (runOps [RegOp.add "b" 0]).stdev "a" = .error "a") :=
  ⟨by decide, registry_unknown_name_errors.1 [RegOp.add "b" 0] "a" (by decide)⟩

/-- C8: direct keyed assignment into the totals dictionary raises a
`TypeError` and leaves the registry completely unchanged. -/
theorem registry_setitem_rejected (t : Timers) (n : String) (v : ℚ) :
    (t.setitem n v).2 =
      .error "Timers does not support item assignment. Use .add() to update values." ∧
    (t.setitem n v).1 = t :=
  ⟨rfl, rfl⟩

/-- C6: on a registry reached by a sequence of `add` calls, for a name
with non-empty recorded history, `min`, `max`, `mean` and `median` return
the corresponding standard statistic over exactly the recorded values;
and on any registry state whose history for a present name is empty,
those four queries return the statistic of the single-element sequence
`[0]`, namely `0`. -/
theorem registry_order_stats_match_recorded :
    (∀ (adds : List (String × ℚ)) (n : String), recorded n adds ≠ [] →
      (∃ m, (Timers.init.addAll adds).min n = .ok m ∧ m ∈ recorded n adds ∧
        ∀ x ∈ recorded n adds, m ≤ x) ∧
      (∃ M, (Timers.init.addAll adds).max n = .ok M ∧ M ∈ recorded n adds ∧
        ∀ x ∈ recorded n adds, x ≤ M) ∧
      (Timers.init.addAll adds).mean n =
        .ok ((recorded n adds).sum / ((recorded n adds).length : ℚ)) ∧
      (∃ s : List ℚ, List.Perm s (recorded n adds) ∧ List.Sorted (· ≤ ·) s ∧
        (Timers.init.addAll adds).median n =
          .ok (if s.length % 2 = 1 then s.getD (s.length / 2) 0
               else (s.getD (s.length / 2 - 1) 0 + s.getD (s.length / 2) 0) / 2))) ∧
    (∀ (t : Timers) (n : String), t.timings n = some [] →
      t.min n = .ok 0 ∧ t.max n = .ok 0 ∧ t.mean n = .ok 0 ∧ t.median n = .ok 0) := by
  constructor
  · intro adds n h
    have ht := Timers.init_addAll_timings adds n
    rw [if_neg h] at ht
    have hor : pyOr0 (recorded n adds) = recorded n adds := if_neg h
    refine ⟨⟨pyMin (recorded n adds), ?_, pyMin_mem _ h, pyMin_le _⟩,
            ⟨pyMax (recorded n adds), ?_, pyMax_mem _ h, le_pyMax _⟩, ?_, ?_⟩
    · simp [Timers.min, Timers.apply, ht, hor]
    · simp [Timers.max, Timers.apply, ht, hor]
    · simp [Timers.mean, Timers.apply, ht, hor, pyMean]
    · refine ⟨pySorted (recorded n adds), List.perm_insertionSort _ _,
        List.sorted_insertionSort _ _, ?_⟩
      simp only [Timers.median, Timers.apply, ht, hor]
      rfl
  · intro t n h
    refine ⟨?_, ?_, ?_, ?_⟩ <;>
      simp [Timers.min, Timers.max, Timers.mean, Timers.median, Timers.apply, h,
        pyOr0, pyMin, pyMax, pyMean, pyMedian, pySorted]

/-- Witness for `registry_order_stats_match_recorded` at a concrete add
sequence. -/
theorem registry_order_stats_match_recorded_witness :
    recorded "a" [("a", 0), ("a", 0)] ≠ [] ∧
    ((∃ m, (Timers.init.addAll [("a", 0), ("a", 0)]).min "a" = .ok m ∧
        m ∈ recorded "a" [("a", 0), ("a", 0)] ∧
        ∀ x ∈ recorded "a" [("a", 0), ("a", 0)], m ≤ x) ∧
     (∃ M, (Timers.init.addAll [("a", 0), ("a", 0)]).max "a" = .ok M ∧
        M ∈ recorded "a" [("a", 0), ("a", 0)] ∧
        ∀ x ∈ recorded "a" [("a", 0), ("a", 0)], x ≤ M) ∧
     (Timers.init.addAll [("a", 0), ("a", 0)]).mean "a" =
        .ok ((recorded "a" [("a", 0), ("a", 0)]).sum /
             ((recorded "a" [("a", 0), ("a", 0)]).length : ℚ)) ∧
     (∃ s : List ℚ, List.Perm s (recorded "a" [("a", 0), ("a", 0)]) ∧
        List.Sorted (· ≤ ·) s ∧
        (Timers.init.addAll [("a", 0), ("a", 0)]).median "a" =
          .ok (if s.length % 2 = 1 then s.getD (s.length / 2) 0
               else (s.getD (s.length / 2 - 1) 0 + s.getD (s.length / 2) 0) / 2))) :=
  ⟨by decide, registry_order_stats_match_recorded.1 [("a", 0), ("a", 0)] "a" (by decide)⟩

/-- C7: `stdev` raises `KeyError(name)` when the name was never recorded,
returns `math.nan` when exactly one sample was recorded, and returns the
sample standard deviation (represented by its square, the sample
variance) when at least two samples were recorded. -/
theorem registry_stdev_spec (adds : List (String × ℚ)) (n : String) :
    (recorded n adds = [] → (Timers.init.addAll adds).stdev n = .error n) ∧
    ((recorded n adds).length = 1 → (Timers.init.addAll adds).stdev n = .ok .nan) ∧
    (2 ≤ (recorded n adds).length →
      (Timers.init.addAll adds).stdev n =
        .ok (.sqrtOfVariance (sampleVariance (recorded n adds)))) := by
  have ht := Timers.init_addAll_timings adds n
  refine ⟨?_, ?_, ?_⟩
  · intro h
    rw [if_pos h] at ht
    simp [Timers.stdev, ht]
  · intro h
    have hne : recorded n adds ≠ [] := by
      intro hc
      rw [hc] at h
      cases h
    rw [if_neg hne] at ht
    have h2 : ¬ (2 ≤ (recorded n adds).length) := by omega
    simp [Timers.stdev, ht, h2]
  · intro h
    have hne : recorded n adds ≠ [] := by
      intro hc
      rw [hc] at h
      simp at h
    rw [if_neg hne] at ht
    simp [Timers.stdev, ht, h]

/-- Witness for `registry_stdev_spec` at a concrete single-sample add
sequence. -/
theorem registry_stdev_spec_witness :
    (recorded "a" [("a", 0)]).length = 1 ∧
    (Timers.init.addAll [("a", 0)]).stdev "a" = .ok .nan :=
  ⟨by decide, (registry_stdev_spec [("a", 0)] "a").2.1 (by decide)⟩

/-- A Python float cell that may hold the `math.nan` sentinel (the initial
value of `Timer.last`) or an actual number. -/
inductive PyFloat where
  | nan : PyFloat
  | val (q : ℚ) : PyFloat
deriving DecidableEq

/-- The injected report sink (the `logger` field, a callable taking the
formatted string).  `str` is the display form `"{}".format(self.logger)`
used by `get_logger_level`; `call` models invoking the callable, where an
`error` result models the callable raising. -/
structure Sink where
  str : String
  call : String → Except String Unit

/-- The `text` field: either a template string or a formatting callable
taking the elapsed seconds (an `error` result models the callable
raising). -/
inductive TimerText where
  | str (template : String) : TimerText
  | fn (f : ℚ → Except String String) : TimerText

/-- The `Timer` dataclass.  `start_time` is `_start_time` (`none` when
idle), `name`, `text`, `logger` and `show_fps` are the constructor
fields, and `last` starts as `math.nan`.  The class-level shared registry
`Timer.timers` is threaded explicitly through `stop`. -/
structure Timer where
  start_time : Option ℚ
  name : Option String
  text : TimerText
  logger : Option Sink
  show_fps : Bool
  last : PyFloat

/-- Rendering of a float into a report string.  The decimal repr of an
IEEE float is abstracted by rendering the exact rational. -/
def qStr (q : ℚ) : String := toString q

/-- Python `"{:0.4f}"` formatting: the value rounded to four decimal
places (float rounding abstracted by exact rational rounding). -/
def format4 (q : ℚ) : String :=
  let n : ℤ := round (q * 10000)
  let a : ℕ := n.natAbs
  let frac : String := toString (a % 10000)
  let pad : String := String.mk (List.replicate (4 - frac.length) (Char.ofNat 48))
  (if n < 0 then "-" else "") ++ toString (a / 10000) ++ "." ++ pad ++ frac

/-- `Timer.get_logger_level`: formats the sink with `"{}"`, splits on
`" ("`, takes the last piece, splits that on `")"` and takes the first
piece. -/
def get_logger_level (sink : Sink) : String :=
  (((sink.str.splitOn " (").getLastD "").splitOn ")").headD ""

/-- Left and right template braces (written via their code points). -/
def lbrace : Char := Char.ofNat 123

/-- Right template brace. -/
def rbrace : Char := Char.ofNat 125

/-- Substitution slots available to `str.format` in `Timer.stop`: the
positional argument (`self.last`, also under a `0.4f` format spec) and
the keys of the `attributes` dictionary.  Placeholders outside this set
raise in Python and do not occur in the embedded program. -/
def pyAttr (t : Timer) (sink : Sink) (elapsed : ℚ) : String → String
  | "" => qStr elapsed
  | ":0.4f" => format4 elapsed
  | "name" => t.name.getD "None"
  | "milliseconds" => qStr (elapsed * 1000)
  | "seconds" => qStr elapsed
  | "minutes" => qStr (elapsed / 60)
  | "level" => get_logger_level sink
  | "fps" => if t.show_fps then qStr (1 / max elapsed (1 / 10 ^ 25)) ++ " fps" else ""
  | _ => ""

/-- Template interpolation of `str.format` restricted to the shapes the
source uses: literal characters are copied, and a bracketed slot is
replaced by its substitution.  The accumulator holds the characters of a
slot being read (in reverse); an unterminated slot raises in Python and
does not occur in the embedded program. -/
def render (get : String → String) : Option (List Char) → List Char → List Char
  | none, [] => []
  | some acc, [] => (get (String.mk acc.reverse)).data
  | none, c :: cs => if c = lbrace then render get (some []) cs else c :: render get none cs
  | some acc, c :: cs =>
      if c = rbrace then (get (String.mk acc.reverse)).data ++ render get none cs
      else render get (some (c :: acc)) cs

/-- The report string of `Timer.stop`: `self.text(self.last)` when `text`
is callable, otherwise `self.text.format(self.last, **attributes)`. -/
def Timer.formatMsg (t : Timer) (sink : Sink) (elapsed : ℚ) : Except String String :=
  match t.text with
  | .fn f => f elapsed
  | .str template => .ok (String.mk (render (pyAttr t sink elapsed) none template.data))

/-- `Timer.start`: raises `TimerError` when already running (before any
mutation), otherwise records the clock reading `now` as `_start_time`. -/
def Timer.start (t : Timer) (now : ℚ) : Timer × Except String Unit :=
  match t.start_time with
  | some _ => (t, .error "Timer is running. Use .stop() to stop it")
  | none => ({ t with start_time := some now }, .ok ())

/-- Outcome of `Timer.stop`: the timer state after the call, the shared
registry after the call, the strings the report sink was invoked with,
and the returned elapsed time or the raised error. -/
structure StopResult where
  timer : Timer
  registry : Timers
  sent : List String
  ret : Except String ℚ

/-- The registry forwarding at the end of `Timer.stop`:
`if self.name: self.timers.add(self.name, self.last)` (Python truthiness:
`None` and the empty string are falsy). -/
def Timer.record (t : Timer) (reg : Timers) (elapsed : ℚ) : Timers :=
  match t.name with
  | some n => if n = "" then reg else reg.add n elapsed
  | none => reg

/-- `Timer.stop` at clock reading `now`: raises `TimerError` when idle
(before any mutation); otherwise stores the elapsed time into `last` and
clears `_start_time`, then reports through the sink when one is set (an
exception from the formatting callable or from the sink propagates,
leaving the already-performed mutations in place), then forwards to the
shared registry when `name` is truthy, and returns the elapsed time. -/
def Timer.stop (t : Timer) (reg : Timers) (now : ℚ) : StopResult :=
  match t.start_time with
  | none => ⟨t, reg, [], .error "Timer is not running. Use .start() to start it"⟩
  | some st =>
    let elapsed := now - st
    let t1 : Timer := { t with last := PyFloat.val elapsed, start_time := none }
    match t1.logger with
    | some sink =>
      match t1.formatMsg sink elapsed with
      | .error e => ⟨t1, reg, [], .error e⟩
      | .ok msg =>
        match sink.call msg with
        | .error e => ⟨t1, reg, [msg], .error e⟩
        | .ok _ => ⟨t1, t1.record reg elapsed, [msg], .ok elapsed⟩
    | none => ⟨t1, t1.record reg elapsed, [], .ok elapsed⟩

/-- C3: `start()` on a running timer raises `TimerError` leaving the
timer (including `last`) unchanged; `stop()` on an idle timer raises
`TimerError` leaving the timer (including `last`) and the registry
unchanged. -/
theorem timer_illegal_transitions :
    (∀ (t : Timer) (now s : ℚ), t.start_time = some s →
      (t.start now).2 = .error "Timer is running. Use .stop() to stop it" ∧
      (t.start now).1 = t) ∧
    (∀ (t : Timer) (reg : Timers) (now : ℚ), t.start_time = none →
      (t.stop reg now).ret = .error "Timer is not running. Use .start() to start it" ∧
      (t.stop reg now).timer = t ∧ (t.stop reg now).registry = reg) := by
  constructor
  · intro t now s h
    unfold Timer.start
    rw [h]
    exact ⟨rfl, rfl⟩
  · intro t reg now h
    unfold Timer.stop
    rw [h]
    exact ⟨rfl, rfl, rfl⟩

/-- Witness for `timer_illegal_transitions` at concrete running and idle
timers. -/
theorem timer_illegal_transitions_witness :
    ((⟨some 0, none, .str "hi", none, false, .nan⟩ : Timer).start_time = some 0 ∧
     ((⟨some 0, none, .str "hi", none, false, .nan⟩ : Timer).start 5).2 =
        .error "Timer is running. Use .stop() to stop it" ∧
     ((⟨some 0, none, .str "hi", none, false, .nan⟩ : Timer).start 5).1 =
        (⟨some 0, none, .str "hi", none, false, .nan⟩ : Timer)) ∧
    ((⟨none, none, .str "hi", none, false, .nan⟩ : Timer).start_time = none ∧
     ((⟨none, none, .str "hi", none, false, .nan⟩ : Timer).stop Timers.init 5).ret =
        .error "Timer is not running. Use .start() to start it" ∧
     ((⟨none, none, .str "hi", none, false, .nan⟩ : Timer).stop Timers.init 5).timer =
        (⟨none, none, .str "hi", none, false, .nan⟩ : Timer) ∧
     ((⟨none, none, .str "hi", none, false, .nan⟩ : Timer).stop Timers.init 5).registry =
        Timers.init) :=
  ⟨⟨rfl, timer_illegal_transitions.1 ⟨some 0, none, .str "hi", none, false, .nan⟩ 5 0 rfl⟩,
   ⟨rfl, timer_illegal_transitions.2 ⟨none, none, .str "hi", none, false, .nan⟩ Timers.init 5 rfl⟩⟩

/-- C10: a timer whose `name` is the empty string never forwards to the
shared registry on `stop` (the guard `if self.name:` treats "" as falsy),
whatever the timer state and report outcome. -/
theorem timer_empty_name_not_forwarded (t : Timer) (reg : Timers) (now : ℚ)
    (h : t.name = some "") : (t.stop reg now).registry = reg := by
  obtain ⟨st0, nm, tx, lg, fps, la⟩ := t
  have h2 : nm = some "" := h
  subst h2
  cases st0 with
  | none => rfl
  | some st =>
    cases lg with
    | none => simp [Timer.stop, Timer.record]
    | some sink =>
      simp only [Timer.stop]
      rcases hfm : Timer.formatMsg ⟨none, some "", tx, some sink, fps,
          PyFloat.val (now - st)⟩ sink (now - st) with e | msg
      · simp [hfm]
      · rcases hc : sink.call msg with e | u
        · simp [hfm, hc]
        · simp [hfm, hc, Timer.record]

/-- Witness for `timer_empty_name_not_forwarded` at a concrete timer. -/
theorem timer_empty_name_not_forwarded_witness :
    ((⟨some 0, some "", .str "hi", none, false, .nan⟩ : Timer).name = some "") ∧
    ((⟨some 0, some "", .str "hi", none, false, .nan⟩ : Timer).stop Timers.init 1).registry =
      Timers.init :=
  ⟨rfl, timer_empty_name_not_forwarded ⟨some 0, some "", .str "hi", none, false, .nan⟩
    Timers.init 1 rfl⟩

/-- A report sink whose invocation raises. -/
def failingSink : Sink := ⟨"boom", fun _ => .error "sink failure"⟩

/-- A running named timer configured with the raising sink. -/
def timerWithFailingSink : Timer := ⟨some 0, some "x", .str "hi", some failingSink, false, .nan⟩

/-- C9 counterexample: with an injected report sink that raises, `stop()`
raises, yet the timer state is NOT left unchanged: `last` has been
overwritten and the running timestamp cleared before the sink was
invoked. -/
theorem stop_partial_failure_counterexample :
    ¬ ((∃ e, (timerWithFailingSink.stop Timers.init 1).ret = .error e) →
       (timerWithFailingSink.stop Timers.init 1).timer.last = timerWithFailingSink.last ∧
       (timerWithFailingSink.stop Timers.init 1).timer.start_time =
         timerWithFailingSink.start_time) := by
  intro h
  obtain ⟨hlast, _⟩ := h ⟨"sink failure", rfl⟩
  exact absurd hlast (by decide)

/-- C9 amended: when the report step of `stop()` raises (either the
formatting callable or the injected sink), the exception propagates and
the shared registry is left unchanged, but the timer is already mutated:
`last` holds the elapsed time and the running timestamp is cleared.  The
registry `add` that a fully successful `stop` performs is itself atomic
(total and history entry recorded together, as proved for `Timers.add`
elsewhere). -/
theorem stop_report_failure_amended :
    (∀ (t : Timer) (reg : Timers) (now st : ℚ) (sink : Sink) (e : String),
      t.start_time = some st → t.logger = some sink →
      t.formatMsg sink (now - st) = .error e →
      (t.stop reg now).ret = .error e ∧ (t.stop reg now).registry = reg ∧
      (t.stop reg now).sent = [] ∧
      (t.stop reg now).timer.last = .val (now - st) ∧
      (t.stop reg now).timer.start_time = none) ∧
    (∀ (t : Timer) (reg : Timers) (now st : ℚ) (sink : Sink) (msg e : String),
      t.start_time = some st → t.logger = some sink →
      t.formatMsg sink (now - st) = .ok msg → sink.call msg = .error e →
      (t.stop reg now).ret = .error e ∧ (t.stop reg now).registry = reg ∧
      (t.stop reg now).sent = [msg] ∧
      (t.stop reg now).timer.last = .val (now - st) ∧
      (t.stop reg now).timer.start_time = none) := by
  constructor
  · intro t reg now st sink e hrun hlog hfmt
    obtain ⟨st0, nm, tx, lg, fps, la⟩ := t
    have h2 : st0 = some st := hrun
    subst h2
    have h3 : lg = some sink := hlog
    subst h3
    have hfmt1 : Timer.formatMsg ⟨none, nm, tx, some sink, fps,
        PyFloat.val (now - st)⟩ sink (now - st) = .error e := hfmt
    simp only [Timer.stop]
    rw [hfmt1]
    exact ⟨rfl, rfl, rfl, rfl, rfl⟩
  · intro t reg now st sink msg e hrun hlog hfmt hcall
    obtain ⟨st0, nm, tx, lg, fps, la⟩ := t
    have h2 : st0 = some st := hrun
    subst h2
    have h3 : lg = some sink := hlog
    subst h3
    have hfmt1 : Timer.formatMsg ⟨none, nm, tx, some sink, fps,
        PyFloat.val (now - st)⟩ sink (now - st) = .ok msg := hfmt
    simp only [Timer.stop]
    rw [hfmt1]
    simp only [hcall]
    exact ⟨trivial, trivial, trivial, trivial, trivial⟩

/-- Witness for `stop_report_failure_amended` at the concrete timer with
the raising sink. -/
theorem stop_report_failure_amended_witness :
    (timerWithFailingSink.start_time = some 0 ∧
     timerWithFailingSink.logger = some failingSink ∧
     timerWithFailingSink.formatMsg failingSink (1 - 0) = .ok "hi" ∧
     failingSink.call "hi" = .error "sink failure") ∧
    ((timerWithFailingSink.stop Timers.init 1).ret = .error "sink failure" ∧
     (timerWithFailingSink.stop Timers.init 1).registry = Timers.init ∧
     (timerWithFailingSink.stop Timers.init 1).sent = ["hi"] ∧
     (timerWithFailingSink.stop Timers.init 1).timer.last = .val (1 - 0) ∧
     (timerWithFailingSink.stop Timers.init 1).timer.start_time = none) :=
  ⟨⟨rfl, rfl, rfl, rfl⟩,
   stop_report_failure_amended.2 timerWithFailingSink Timers.init 1 0 failingSink "hi"
     "sink failure" rfl rfl rfl rfl⟩

/-- C2: for a running timer whose report step does not raise (the sink
contract), `stop()` succeeds: it returns the elapsed time
`now - startTimestamp`, stores it into `last`, clears the running
timestamp, invokes the report sink exactly once with the formatted string
when a sink is set, and forwards `(name, elapsed)` to the shared registry
via `add` when `name` is set (non-empty). -/
theorem timer_stop_success (t : Timer) (reg : Timers) (now st : ℚ)
    (hrun : t.start_time = some st)
    (hrep : ∀ sink, t.logger = some sink →
      ∃ msg, t.formatMsg sink (now - st) = .ok msg ∧ sink.call msg = .ok ()) :
    (t.stop reg now).ret = .ok (now - st) ∧
    (t.stop reg now).timer.last = .val (now - st) ∧
    (t.stop reg now).timer.start_time = none ∧
    (∀ sink msg, t.logger = some sink → t.formatMsg sink (now - st) = .ok msg →
      (t.stop reg now).sent = [msg]) ∧
    (∀ n, t.name = some n → n ≠ "" → (t.stop reg now).registry = reg.add n (now - st)) := by
  obtain ⟨st0, nm, tx, lg, fps, la⟩ := t
  have h2 : st0 = some st := hrun
  subst h2
  cases lg with
  | none =>
    refine ⟨rfl, rfl, rfl, ?_, ?_⟩
    · intro sink msg hsink _
      exact Option.noConfusion hsink
    · intro n hn hne
      have h3 : nm = some n := hn
      subst h3
      simp only [Timer.stop, Timer.record]
      rw [if_neg hne]
  | some sink =>
    obtain ⟨msg, hfmt, hcall⟩ := hrep sink rfl
    have hfmt1 : Timer.formatMsg ⟨none, nm, tx, some sink, fps,
        PyFloat.val (now - st)⟩ sink (now - st) = .ok msg := hfmt
    refine ⟨?_, ?_, ?_, ?_, ?_⟩
    · simp only [Timer.stop]
      rw [hfmt1]
      simp only [hcall]
    · simp only [Timer.stop]
      rw [hfmt1]
      simp only [hcall]
    · simp only [Timer.stop]
      rw [hfmt1]
      simp only [hcall]
    · intro sink2 msg2 hsink2 hfmt2
      have h4 : sink2 = sink := by
        have := Option.some_injective _ hsink2
        exact this.symm
      subst h4
      have h5 : msg2 = msg := by
        have hfmt3 : Except.ok (ε := String) msg2 = Except.ok msg := by
          rw [← hfmt2, ← hfmt]
        exact Option.some_injective _ (congrArg Except.toOption hfmt3)
      subst h5
      simp only [Timer.stop]
      rw [hfmt1]
      simp only [hcall]
    · intro n hn hne
      have h3 : nm = some n := hn
      subst h3
      simp only [Timer.stop]
      rw [hfmt1]
      simp only [hcall]
      simp only [Timer.record]
      rw [if_neg hne]

/-- A report sink that never raises. -/
def okSink : Sink := ⟨"Logger (DEBUG)", fun _ => .ok ()⟩

/-- A running named timer with a formatting callable and the benign
sink. -/
def timerRunning : Timer := ⟨some 2, some "x", .fn (fun _ => .ok "m"), some okSink, false, .nan⟩

/-- Witness for `timer_stop_success` at a concrete running timer. -/
theorem timer_stop_success_witness :
    (timerRunning.start_time = some 2 ∧
     (∀ sink, timerRunning.logger = some sink →
       ∃ msg, timerRunning.formatMsg sink (5 - 2) = .ok msg ∧ sink.call msg = .ok ())) ∧
    ((timerRunning.stop Timers.init 5).ret = .ok (5 - 2) ∧
     (timerRunning.stop Timers.init 5).timer.last = .val (5 - 2) ∧
     (timerRunning.stop Timers.init 5).timer.start_time = none ∧
     (∀ sink msg, timerRunning.logger = some sink →
        timerRunning.formatMsg sink (5 - 2) = .ok msg →
        (timerRunning.stop Timers.init 5).sent = [msg]) ∧
     (∀ n, timerRunning.name = some n → n ≠ "" →
        (timerRunning.stop Timers.init 5).registry = Timers.init.add n (5 - 2))) := by
  have hrep : ∀ sink, timerRunning.logger = some sink →
      ∃ msg, timerRunning.formatMsg sink (5 - 2) = .ok msg ∧ sink.call msg = .ok () := by
    intro sink hs
    cases hs
    exact ⟨"m", rfl, rfl⟩
  exact ⟨⟨rfl, hrep⟩, timer_stop_success timerRunning Timers.init 5 2 rfl hrep⟩
